import Mathlib

/-!
Verification of the Abfall-Kalender PDF parser (`parse_calendar_pdf.py`).

The raster-image primitives (edge detection, Hough lines, HSV masking,
contour extraction) are external collaborators: a page image is modelled by
the image facts the core consumes from them — the raw axis positions of the
detected table lines (fed to the `cluster` step of `find_grid_lines`) and,
per waste-type colour, the list of detected contours with their area,
bounding box and area moments (fed to the filtering loop of `find_icons`).
Everything downstream of those facts — clustering, cell mapping, icon
filtering, page parsing, event assembly, district expansion — is embedded
directly from the source.  Floating-point quantities (contour areas and
moments) are modelled by rationals; Python `int(...)` truncation toward
zero is `Int.tdiv`.
-/

/-! ## Decimal formatting and parsing (Python str/int and f-strings) -/

/-- The decimal digit character for `n < 10` (`'0'` is code point 48). -/
def digitChar (n : Nat) : Char := Char.ofNat (48 + n)

/-- Fuel-driven decimal printer; `fuel = n + 1` always suffices. -/
def decimalAux : Nat → Nat → List Char
  | 0, _ => []
  | fuel + 1, n =>
    if n < 10 then [digitChar n] else decimalAux fuel (n / 10) ++ [digitChar (n % 10)]

/-- The decimal digits of a natural number, as Python `str` prints it. -/
def decimalChars (n : Nat) : List Char := decimalAux (n + 1) n

/-- Python `str(i)` for an integer: optional minus sign, then decimal digits. -/
def intChars (n : Int) : List Char :=
  if n < 0 then '-' :: decimalChars n.natAbs else decimalChars n.toNat

/-- Python `f"{n:02d}"`: left-pad with `'0'` to width 2. -/
def pad2 (n : Int) : List Char :=
  if (intChars n).length < 2 then '0' :: intChars n else intChars n

/-- The numeric value of a digit character. -/
def digitVal (c : Char) : Nat := c.toNat - 48

/-- Whether a character is a decimal digit. -/
def isDigitC (c : Char) : Bool := 48 ≤ c.toNat && c.toNat ≤ 57

/-- Value of a digit string (no sign), as Python `int` computes it. -/
def charsNat (l : List Char) : Nat := l.foldl (fun acc c => 10 * acc + digitVal c) 0

/-- Python `int(s)` on an optionally-signed decimal string. -/
def charsInt (l : List Char) : Int :=
  match l with
  | '-' :: rest => -(charsNat rest : Int)
  | _ => (charsNat l : Int)

/-- Python `s.split(sep)` on character lists. -/
def splitOnChar (sep : Char) : List Char → List (List Char)
  | [] => [[]]
  | c :: cs =>
    if c = sep then [] :: splitOnChar sep cs
    else
      match splitOnChar sep cs with
      | [] => [[c]]
      | p :: ps => (c :: p) :: ps

/-- Strict parse of an unsigned decimal string. -/
def natVal? (l : List Char) : Option Nat :=
  if l ≠ [] ∧ l.all isDigitC then some (charsNat l) else none

/-- Strict parse of an optionally-signed decimal string. -/
def intVal? (l : List Char) : Option Int :=
  match l with
  | '-' :: rest => (natVal? rest).map (fun n => -(n : Int))
  | _ => (natVal? l).map (fun n => (n : Int))

/-! ## Grid Detector clustering (`cluster` inside `find_grid_lines`) -/

/-- `int(np.mean(c))`: the exact mean truncated toward zero. -/
def intMean (l : List Int) : Int := Int.tdiv l.sum (l.length : Int)

/-- Python `sorted` on integers. -/
def sortInt (l : List Int) : List Int := List.insertionSort (· ≤ ·) l

/-- The clustering loop of `cluster`: `cur` is the cluster being grown,
`prev` its last member; a new value `v` joins it when `v - prev < t`,
otherwise it closes `cur` and starts a fresh cluster. -/
def chunksGo (t : Int) (cur : List Int) (prev : Int) : List Int → List (List Int)
  | [] => [cur]
  | v :: vs =>
    if v - prev < t then chunksGo t (cur ++ [v]) v vs
    else cur :: chunksGo t [v] v vs

/-- `cluster(values, threshold)` from `find_grid_lines`: sort, group values
whose consecutive gap is below the threshold, return the sorted integer
means of the groups. -/
def cluster (t : Int) (values : List Int) : List Int :=
  match sortInt values with
  | [] => []
  | v :: vs => sortInt ((chunksGo t [v] v vs).map intMean)

/-! ## Cell Mapper (`map_to_cell`) -/

/-- The interval scan `for i in range(len(lines) - 1): if lines[i] <= z < lines[i+1]`:
index of the first half-open interval containing `z`, if any. -/
def scanIdx : List Int → Int → Option Nat
  | a :: b :: rest, z =>
    if a ≤ z ∧ z < b then some 0 else (scanIdx (b :: rest) z).map (· + 1)
  | _, _ => none

/-- One axis of `map_to_cell`: the scan, then the for-else branch
`if z >= lines[-1]: idx = len(lines) - 2` (default 0).  `none` models the
`IndexError` Python raises on `lines[-1]` for an empty list. -/
def clampIdx (lines : List Int) (z : Int) : Option Int :=
  match scanIdx lines z with
  | some i => some (i : Int)
  | none =>
    match lines.getLast? with
    | none => none
    | some last => some (if last ≤ z then (lines.length : Int) - 2 else 0)

/-- `map_to_cell(x, y, h_lines, v_lines)`: `month = col + 1`, `day = row`. -/
def map_to_cell (x y : Int) (h_lines v_lines : List Int) : Option (Int × Int) :=
  match clampIdx v_lines x, clampIdx h_lines y with
  | some col, some row => some (col + 1, row)
  | _, _ => none

/-! ## Pictogram Locator (`find_icons`) -/

/-- An external contour as cv2 reports it: `contourArea`, `boundingRect`
width/height, and the area moments `m00`, `m10`, `m01`. -/
structure Contour where
  area : ℚ
  w : Nat
  h : Nat
  m00 : ℚ
  m10 : ℚ
  m01 : ℚ

/-- Default `min_area` of `find_icons`. -/
def min_area : ℚ := 100

/-- Default `max_area` of `find_icons`. -/
def max_area : ℚ := 15000

/-- Python `int(q)` on a rational: truncation toward zero. -/
def ratTrunc (q : ℚ) : Int := Int.tdiv q.num (q.den : Int)

/-- The filtering loop of `find_icons`: keep a contour when
`min_area < area < max_area`, the aspect ratio `max(w,h)/min(w,h)`
(999 when a dimension is 0) is `< 3`, and `m00 > 0`; emit the centroid
`(int(m10/m00), int(m01/m00))`. -/
def find_icons (contours : List Contour) : List (Int × Int) :=
  contours.filterMap fun cnt =>
    if min_area < cnt.area ∧ cnt.area < max_area then
      let aspect : ℚ :=
        if 0 < min cnt.w cnt.h then ((max cnt.w cnt.h : Nat) : ℚ) / ((min cnt.w cnt.h : Nat) : ℚ)
        else 999
      if aspect < 3 then
        if 0 < cnt.m00 then
          some (ratTrunc (cnt.m10 / cnt.m00), ratTrunc (cnt.m01 / cnt.m00))
        else none
      else none
    else none

/-! ## Page Parser (`parse_calendar_page`) -/

/-- The registered waste types, in `ICON_COLORS` insertion order. -/
inductive WasteType
  | restmuell
  | biotonne
  | papiertonne
  | gelber_sack
deriving DecidableEq

/-- The iteration order of `ICON_COLORS.items()`. -/
def wasteTypes : List WasteType :=
  [.restmuell, .biotonne, .papiertonne, .gelber_sack]

/-- The dict key of a waste type. -/
def wasteKey : WasteType → String
  | .restmuell => "restmuell"
  | .biotonne => "biotonne"
  | .papiertonne => "papiertonne"
  | .gelber_sack => "gelber_sack"

/-- `WASTE_DESCRIPTIONS` (all four keys are present, so the
`.get(waste_type, waste_type)` fallback never fires). -/
def WASTE_DESCRIPTIONS : WasteType → String
  | .restmuell => "Restmüll"
  | .biotonne => "Biotonne"
  | .papiertonne => "Papiertonne"
  | .gelber_sack => "Gelber Sack"

/-- A page image, by the image facts the core consumes: per axis the raw
Hough line positions handed to `cluster`, and per waste-type colour the
contours the colour mask produces. -/
structure PageImage where
  rawH : List Int
  rawV : List Int
  contours : WasteType → List Contour

/-- The filter `1 <= month <= 12 and 1 <= day <= 31`. -/
def month_day_ok (md : Int × Int) : Prop :=
  1 ≤ md.1 ∧ md.1 ≤ 12 ∧ 1 ≤ md.2 ∧ md.2 ≤ 31

instance month_day_ok.dec : DecidablePred month_day_ok := fun md => by
  unfold month_day_ok
  infer_instance

/-- Python tuple comparison `(m, d) <= (m2, d2)`: lexicographic. -/
def pairLe (a b : Int × Int) : Prop := a.1 < b.1 ∨ (a.1 = b.1 ∧ a.2 ≤ b.2)

/-- Strict lexicographic order on (month, day) pairs. -/
def pairLt (a b : Int × Int) : Prop := a.1 < b.1 ∨ (a.1 = b.1 ∧ a.2 < b.2)

instance pairLe.dec : DecidableRel pairLe := fun a b => by
  unfold pairLe
  infer_instance

instance pairLe.total : IsTotal (Int × Int) pairLe :=
  ⟨fun a b => by unfold pairLe; omega⟩

instance pairLe.trans : IsTrans (Int × Int) pairLe :=
  ⟨fun a b c h1 h2 => by unfold pairLe at h1 h2 ⊢; omega⟩

/-- Python `sorted(set(dates))` on (month, day) tuples: the sorted list of
the distinct elements. -/
def sorted_set (l : List (Int × Int)) : List (Int × Int) :=
  (List.insertionSort pairLe l).dedup

/-- Python `f"{m}.{d}"`. -/
def fmtMD (md : Int × Int) : String := ⟨intChars md.1 ++ '.' :: intChars md.2⟩

/-- The per-waste-type date loop of `parse_calendar_page`: map each centroid
through `map_to_cell` and keep cells with month 1–12 and day 1–31.  (The
`none` branch of `map_to_cell` is unreachable here: the caller has already
checked that both boundary lists are nonempty.) -/
def page_dates (img : PageImage) (wt : WasteType) (h_lines v_lines : List Int) :
    List (Int × Int) :=
  (find_icons (img.contours wt)).filterMap fun xy =>
    match map_to_cell xy.1 xy.2 h_lines v_lines with
    | some md => if month_day_ok md then some md else none
    | none => none

/-- `parse_calendar_page(img)`: grid-detect, reject non-calendar pages,
then per waste type collect, deduplicate, sort and format the dates. -/
def parse_calendar_page (img : PageImage) : Option (WasteType → List String) :=
  let h_lines := cluster 10 img.rawH
  let v_lines := cluster 10 img.rawV
  if h_lines.length < 30 ∨ v_lines.length < 10 then none
  else some fun wt => (sorted_set (page_dates img wt h_lines v_lines)).map fmtMD

/-! ## Document Assembler (`parse_pdf`) -/

/-- One output event dict. -/
structure Event where
  date : String
  type : String
  description : String
deriving DecidableEq

/-- `month, day = map(int, date_str.split("."))`.  In the pipeline the
string always has exactly one dot; the `(0, 0)` default stands in for the
unreachable malformed case. -/
def parseDotMD (s : String) : Int × Int :=
  match splitOnChar '.' s.data with
  | [a, b] => (charsInt a, charsInt b)
  | _ => (0, 0)

/-- `f"{year}-{month:02d}-{day:02d}"`. -/
def dateChars (year : Nat) (m d : Int) : List Char :=
  decimalChars year ++ '-' :: (pad2 m ++ '-' :: pad2 d)

/-- The event date string. -/
def dateString (year : Nat) (m d : Int) : String := ⟨dateChars year m d⟩

/-- Parse of an event date string back into (year, month, day): split on
`'-'` and read each piece as a decimal number. -/
def parseDashDate (s : String) : Option (Int × Int × Int) :=
  match splitOnChar '-' s.data with
  | [a, b, c] =>
    match intVal? a, intVal? b, intVal? c with
    | some y, some m, some d => some (y, m, d)
    | _, _, _ => none
  | _ => none

/-- Python string comparison of event dates (code-point lexicographic),
used as the sort key `e["date"]`. -/
def eventLe (e1 e2 : Event) : Prop :=
  e1.date.data < e2.date.data ∨ e1.date.data = e2.date.data

instance eventLe.dec : DecidableRel eventLe := fun a b => by
  unfold eventLe
  infer_instance

instance eventLe.total : IsTotal Event eventLe :=
  ⟨fun a b => by
    unfold eventLe
    rcases lt_trichotomy a.date.data b.date.data with h | h | h
    · exact Or.inl (Or.inl h)
    · exact Or.inl (Or.inr h)
    · exact Or.inr (Or.inl h)⟩

instance eventLe.trans : IsTrans Event eventLe :=
  ⟨fun a b c h1 h2 => by
    unfold eventLe at h1 h2 ⊢
    rcases h1 with h1 | h1 <;> rcases h2 with h2 | h2
    · exact Or.inl (lt_trans h1 h2)
    · exact Or.inl (h2 ▸ h1)
    · exact Or.inl (h1 ▸ h2)
    · exact Or.inr (h1.trans h2)⟩

/-- The event-building loop of `parse_pdf` followed by
`events.sort(key=lambda e: e["date"])`. -/
def buildEvents (year : Nat) (r : WasteType → List String) : List Event :=
  List.insertionSort eventLe
    (wasteTypes.flatMap fun wt =>
      (r wt).map fun ds =>
        let md := parseDotMD ds
        ⟨dateString year md.1 md.2, wasteKey wt, WASTE_DESCRIPTIONS wt⟩)

/-- `DISTRICT_EXPANSION`, in dict iteration order. -/
def DISTRICT_EXPANSION : List (String × List String) :=
  [("Neuastenberg", ["Langewiese", "Mollseifen", "Neuastenberg", "Hoheleye"])]

/-- Whether `needle` stands at the front of `hay`. -/
def leadsL : List Char → List Char → Bool
  | [], _ => true
  | _ :: _, [] => false
  | c :: cs, d :: ds => c = d && leadsL cs ds

/-- Python `needle in hay` substring containment on character lists. -/
def hasSub (needle : List Char) : List Char → Bool
  | [] => needle.isEmpty
  | c :: rest => leadsL needle (c :: rest) || hasSub needle rest

/-- The expansion lookup `for key, districts in DISTRICT_EXPANSION.items():
if key in district: ... break`. -/
def findExpansion (district : String) : Option (List String) :=
  (DISTRICT_EXPANSION.find? fun kv => hasSub kv.1.data district.data).map Prod.snd

/-- `e.copy()`: a fresh event dict with the same fields. -/
def copyEvent (e : Event) : Event := ⟨e.date, e.type, e.description⟩

/-- The accumulating `result["districts"]` mapping: an association list
with Python-dict write semantics (overwrite in place, append new keys). -/
abbrev Districts := List (String × List Event)

/-- `d[k] = v` on a Python dict. -/
def dictInsert (d : Districts) (k : String) (v : List Event) : Districts :=
  if d.any (fun p => p.1 == k) then d.map (fun p => if p.1 == k then (k, v) else p)
  else d ++ [(k, v)]

/-- `d.get(k)` on a Python dict. -/
def lookupD (d : Districts) (k : String) : Option (List Event) :=
  (d.find? (fun p => p.1 == k)).map Prod.snd

/-- A document page, by what the assembler consumes from it: the resolved
district name (from `extract_district_name`) and the rendered image. -/
structure Page where
  district : String
  image : PageImage

/-- One iteration of the page loop of `parse_pdf`: skip non-calendar pages;
otherwise build and sort the events and write them under the district name,
expanded to several copies when the name matches the expansion table. -/
def process_page (year : Nat) (ds : Districts) (p : Page) : Districts :=
  match parse_calendar_page p.image with
  | none => ds
  | some r =>
    let events := buildEvents year r
    match findExpansion p.district with
    | some targets =>
      targets.foldl (fun acc t => dictInsert acc t (events.map copyEvent)) ds
    | none => dictInsert ds p.district events

/-- The `districts` mapping `parse_pdf` assembles over all pages. -/
def parse_pdf (year : Nat) (pages : List Page) : Districts :=
  pages.foldl (process_page year) []

/-! ## The calendar-validity predicate the spec's Event data model asserts -/

/-- Number of days of a month in the proleptic Gregorian calendar. -/
def daysInMonth (y m : Nat) : Nat :=
  if m = 2 then (if (y % 4 = 0 ∧ y % 100 ≠ 0) ∨ y % 400 = 0 then 29 else 28)
  else if m = 4 ∨ m = 6 ∨ m = 9 ∨ m = 11 then 30 else 31

/-- Whether `(y, m, d)` denotes a day that exists in year `y`\'s calendar. -/
def isRealDate (y m d : Nat) : Prop :=
  1 ≤ m ∧ m ≤ 12 ∧ 1 ≤ d ∧ d ≤ daysInMonth y m

instance isRealDate.dec (y m d : Nat) : Decidable (isRealDate y m d) := by
  unfold isRealDate
  infer_instance

/-! ## Spec-side acceptance predicate of the Pictogram Locator -/

/-- The acceptance condition of `find_icons` as the spec states it:
area strictly between the bounds, positive bounding-box dimensions with
aspect ratio below 3, and positive zeroth moment. -/
def iconAccept (cnt : Contour) : Prop :=
  min_area < cnt.area ∧ cnt.area < max_area ∧ 0 < min cnt.w cnt.h ∧
  ((max cnt.w cnt.h : Nat) : ℚ) / ((min cnt.w cnt.h : Nat) : ℚ) < 3 ∧ 0 < cnt.m00

instance iconAccept.dec : DecidablePred iconAccept := fun cnt => by
  unfold iconAccept
  infer_instance

/-- The centroid `find_icons` emits for an accepted contour. -/
def iconCentroid (cnt : Contour) : Int × Int :=
  (ratTrunc (cnt.m10 / cnt.m00), ratTrunc (cnt.m01 / cnt.m00))

/-- Boolean check that consecutive entries are at least `t` apart. -/
def gapsOKB (t : Int) : List Int → Bool
  | [] => true
  | [_] => true
  | a :: b :: rest => decide (a + t ≤ b) && gapsOKB t (b :: rest)

/-! ## Concrete fixtures for witnesses and counterexamples -/

/-- 33 horizontal line positions 0, 100, …, 3200. -/
def testRawH : List Int := (List.range 33).map (fun i => 100 * (i : Int))

/-- 10 vertical line positions 0, 100, …, 900. -/
def testRawV : List Int := (List.range 10).map (fun i => 100 * (i : Int))

/-- A compact 10×10 contour of area 200 and unit mass centred at
(150, 3150): column 1 (month 2), row 31 (day 31). -/
def testCnt : Contour := ⟨200, 10, 10, 1, 150, 3150⟩

/-- A page image whose grid passes the calendar check and that shows one
biotonne pictogram in the cell (month 2, day 31). -/
def testImg : PageImage :=
  ⟨testRawH, testRawV, fun wt => match wt with | .biotonne => [testCnt] | _ => []⟩

/-- The parse result of `testImg`. -/
def testR : WasteType → List String :=
  fun wt => match wt with | .biotonne => ["2.31"] | _ => []

/-- A page with an unexpanded district name. -/
def testPage : Page := ⟨"Testort", testImg⟩

/-- A page whose resolved name matches the expansion key. -/
def expansionPage : Page := ⟨"Neuastenberg", testImg⟩

/-- An image with no detected lines at all (e.g., a cover page). -/
def emptyImg : PageImage := ⟨[], [], fun _ => []⟩

/-! ## Lemmas about the interval scan of `map_to_cell` -/

lemma sorted_head_le {a : Int} {l : List Int} (h : (a :: l).Pairwise (· < ·))
    (i : Fin (a :: l).length) : a ≤ (a :: l).get i := by
  rcases i with ⟨i, hi⟩
  cases i with
  | zero => simp
  | succ j =>
    have hj : j < l.length := by simpa using hi
    have hmem : l.get ⟨j, hj⟩ ∈ l := List.get_mem l j hj
    have := (List.pairwise_cons.1 h).1 _ hmem
    simpa using this.le

lemma sorted_head_le_getLast {a : Int} {l : List Int} (h : (a :: l).Pairwise (· < ·))
    {w : Int} (hw : (a :: l).getLast? = some w) : a ≤ w := by
  have hne : a :: l ≠ [] := by simp
  rw [List.getLast?_eq_getLast _ hne, Option.some.injEq] at hw
  have hmem : (a :: l).getLast hne ∈ a :: l := List.getLast_mem hne
  rw [hw] at hmem
  rcases List.mem_cons.1 hmem with h1 | h1
  · exact h1.symm.le
  · exact ((List.pairwise_cons.1 h).1 _ h1).le

lemma scanIdx_eq_some_of {v : List Int} {x : Int} {i : Nat}
    (hpw : v.Pairwise (· < ·)) (hi : i + 1 < v.length)
    (h1 : v.get ⟨i, by omega⟩ ≤ x) (h2 : x < v.get ⟨i + 1, hi⟩) :
    scanIdx v x = some i := by
  induction i generalizing v with
  | zero =>
    match v, hi with
    | a :: b :: rest, _ =>
      simp only [List.get] at h1 h2
      simp [scanIdx, h1, h2]
  | succ j ih =>
    match v, hi with
    | a :: b :: rest, hi =>
      have htail : (b :: rest).Pairwise (· < ·) := (List.pairwise_cons.1 hpw).2
      have hj : j + 1 < (b :: rest).length := by simpa using hi
      have hg1 : (b :: rest).get ⟨j, by omega⟩ ≤ x := by
        simpa using h1
      have hg2 : x < (b :: rest).get ⟨j + 1, hj⟩ := by
        simpa using h2
      have hbx : b ≤ x := le_trans (sorted_head_le htail ⟨j, by omega⟩) hg1
      have hcond : ¬(a ≤ x ∧ x < b) := by
        intro hc
        exact absurd hc.2 (not_lt.2 hbx)
      simp [scanIdx, hcond, ih htail hj hg1 hg2]

lemma scanIdx_eq_none_of_ge_last {v : List Int} {x w : Int}
    (hpw : v.Pairwise (· < ·)) (hw : v.getLast? = some w) (hwx : w ≤ x) :
    scanIdx v x = none := by
  induction v with
  | nil => simp [scanIdx]
  | cons a l ih =>
    cases l with
    | nil => simp [scanIdx]
    | cons b rest =>
      have htail : (b :: rest).Pairwise (· < ·) := (List.pairwise_cons.1 hpw).2
      have hw' : (b :: rest).getLast? = some w := by
        simpa [List.getLast?_cons_cons] using hw
      have hbw : b ≤ w := sorted_head_le_getLast htail hw'
      have hcond : ¬(a ≤ x ∧ x < b) := by
        intro hc
        exact absurd hc.2 (not_lt.2 (le_trans hbw hwx))
      simp [scanIdx, hcond, ih htail hw']

lemma scanIdx_eq_some_bounds {v : List Int} {x : Int} {i : Nat}
    (h : scanIdx v x = some i) :
    ∃ hi : i + 1 < v.length, v.get ⟨i, by omega⟩ ≤ x ∧ x < v.get ⟨i + 1, hi⟩ := by
  induction v generalizing i with
  | nil => simp [scanIdx] at h
  | cons a l ih =>
    cases l with
    | nil => simp [scanIdx] at h
    | cons b rest =>
      by_cases hc : a ≤ x ∧ x < b
      · simp [scanIdx, hc] at h
        subst h
        exact ⟨by simp, by simpa using hc⟩
      · simp only [scanIdx, if_neg hc, Option.map_eq_some'] at h
        obtain ⟨j, hj, rfl⟩ := h
        obtain ⟨hjl, hg1, hg2⟩ := ih hj
        exact ⟨by simpa using hjl, by simpa using hg1, by simpa using hg2⟩

lemma scanIdx_total {v : List Int} {x w : Int}
    (hpw : v.Pairwise (· < ·)) (hne : v ≠ [])
    (hh : v.head hne ≤ x) (hw : v.getLast? = some w) (hxw : x < w) :
    ∃ i, scanIdx v x = some i := by
  induction v with
  | nil => exact absurd rfl hne
  | cons a l ih =>
    cases l with
    | nil =>
      simp only [List.getLast?_singleton, Option.some.injEq] at hw
      simp only [List.head] at hh
      omega
    | cons b rest =>
      by_cases hc : a ≤ x ∧ x < b
      · exact ⟨0, by simp [scanIdx, hc]⟩
      · have hh' : (a :: b :: rest).head (by simp) = a := rfl
        have hbx : b ≤ x := by
          simp only [List.head] at hh
          rcases not_and_or.1 hc with h | h
          · omega
          · exact not_lt.1 h
        have htail : (b :: rest).Pairwise (· < ·) := (List.pairwise_cons.1 hpw).2
        have hw' : (b :: rest).getLast? = some w := by
          simpa [List.getLast?_cons_cons] using hw
        obtain ⟨j, hj⟩ := ih htail (by simp) (by simpa using hbx) hw'
        exact ⟨j + 1, by simp [scanIdx, hc, hj]⟩

lemma clampIdx_eq_scan_some {v : List Int} {x : Int} {i : Nat}
    (hs : scanIdx v x = some i) : clampIdx v x = some (i : Int) := by
  unfold clampIdx
  rw [hs]

lemma clampIdx_eq_scan_none {v : List Int} {x w : Int}
    (hs : scanIdx v x = none) (hw : v.getLast? = some w) :
    clampIdx v x = some (if w ≤ x then (v.length : Int) - 2 else 0) := by
  unfold clampIdx
  rw [hs, hw]

lemma clampIdx_isSome {lines : List Int} (z : Int) (hne : lines ≠ []) :
    (clampIdx lines z).isSome := by
  unfold clampIdx
  cases hs : scanIdx lines z with
  | some i => simp
  | none =>
    cases hl : lines.getLast? with
    | none => exact absurd (List.getLast?_eq_none_iff.1 hl) hne
    | some w => simp

lemma clampIdx_nonneg {lines : List Int} {z c : Int}
    (hlen : 2 ≤ lines.length) (h : clampIdx lines z = some c) : 0 ≤ c := by
  unfold clampIdx at h
  cases hs : scanIdx lines z with
  | some i => rw [hs] at h; simp at h; omega
  | none =>
    rw [hs] at h
    cases hl : lines.getLast? with
    | none => rw [hl] at h; simp at h
    | some w =>
      rw [hl] at h
      simp only [Option.some.injEq] at h
      subst h
      split <;> [skip; omega]
      have : (2 : Int) ≤ (lines.length : Int) := by exact_mod_cast hlen
      omega

lemma clampIdx_le {lines : List Int} {z c : Int}
    (hlen : 2 ≤ lines.length) (h : clampIdx lines z = some c) :
    c ≤ (lines.length : Int) - 2 := by
  unfold clampIdx at h
  cases hs : scanIdx lines z with
  | some i =>
    rw [hs] at h
    simp only [Option.some.injEq] at h
    obtain ⟨hi, -, -⟩ := scanIdx_eq_some_bounds hs
    subst h
    have : (i : Int) + 1 < (lines.length : Int) := by exact_mod_cast hi
    omega
  | none =>
    rw [hs] at h
    cases hl : lines.getLast? with
    | none => rw [hl] at h; simp at h
    | some w =>
      rw [hl] at h
      simp only [Option.some.injEq] at h
      subst h
      have : (2 : Int) ≤ (lines.length : Int) := by exact_mod_cast hlen
      split <;> omega

lemma clampIdx_of_interval {v : List Int} {x : Int} {i : Nat}
    (hpw : v.Pairwise (· < ·)) (hi : i + 1 < v.length)
    (h1 : v.get ⟨i, by omega⟩ ≤ x) (h2 : x < v.get ⟨i + 1, hi⟩) :
    clampIdx v x = some (i : Int) := by
  unfold clampIdx
  rw [scanIdx_eq_some_of hpw hi h1 h2]

lemma clampIdx_of_ge_last {v : List Int} {x w : Int}
    (hpw : v.Pairwise (· < ·)) (hw : v.getLast? = some w) (hwx : w ≤ x) :
    clampIdx v x = some ((v.length : Int) - 2) := by
  rw [clampIdx_eq_scan_none (scanIdx_eq_none_of_ge_last hpw hw hwx) hw, if_pos hwx]

lemma clampIdx_mono {v : List Int} {x1 x2 c1 c2 : Int}
    (hpw : v.Pairwise (· < ·)) (hlen : 2 ≤ v.length) (hx : x1 ≤ x2)
    (h1 : clampIdx v x1 = some c1) (h2 : clampIdx v x2 = some c2) : c1 ≤ c2 := by
  have hne : v ≠ [] := by intro h; rw [h] at hlen; simp at hlen
  obtain ⟨w, hw⟩ : ∃ w, v.getLast? = some w := by
    cases hl : v.getLast? with
    | none => exact absurd (List.getLast?_eq_none_iff.1 hl) hne
    | some w => exact ⟨w, rfl⟩
  cases hs1 : scanIdx v x1 with
  | some i1 =>
    rw [clampIdx_eq_scan_some hs1, Option.some.injEq] at h1
    subst h1
    obtain ⟨hi1, hg1, hg1'⟩ := scanIdx_eq_some_bounds hs1
    cases hs2 : scanIdx v x2 with
    | some i2 =>
      rw [clampIdx_eq_scan_some hs2, Option.some.injEq] at h2
      subst h2
      obtain ⟨hi2, hg2, hg2'⟩ := scanIdx_eq_some_bounds hs2
      by_contra hcon
      have hlt : i2 < i1 := by
        have := not_le.1 hcon
        exact_mod_cast this
      have hle : v.get ⟨i2 + 1, hi2⟩ ≤ v.get ⟨i1, by omega⟩ := by
        rcases Nat.lt_or_ge (i2 + 1) i1 with h | h
        · exact (List.pairwise_iff_get.1 hpw ⟨i2 + 1, hi2⟩ ⟨i1, by omega⟩ h).le
        · have : i2 + 1 = i1 := by omega
          simp [this]
      omega
    | none =>
      rw [clampIdx_eq_scan_none hs2 hw, Option.some.injEq] at h2
      by_cases hwx : w ≤ x2
      · rw [if_pos hwx] at h2
        subst h2
        have : (i1 : Int) + 1 < (v.length : Int) := by exact_mod_cast hi1
        omega
      · exfalso
        have hxh : x2 < v.head hne := by
          by_contra hcon
          obtain ⟨j, hj⟩ := scanIdx_total hpw hne (not_lt.1 hcon) hw (not_le.1 hwx)
          rw [hj] at hs2
          exact Option.noConfusion hs2
        have hhead : v.head hne ≤ v.get ⟨i1, by omega⟩ := by
          cases v with
          | nil => exact absurd rfl hne
          | cons a l => exact sorted_head_le hpw _
        omega
  | none =>
    rw [clampIdx_eq_scan_none hs1 hw, Option.some.injEq] at h1
    by_cases hwx : w ≤ x1
    · rw [if_pos hwx] at h1
      subst h1
      have hs2 : scanIdx v x2 = none := scanIdx_eq_none_of_ge_last hpw hw (le_trans hwx hx)
      rw [clampIdx_eq_scan_none hs2 hw, if_pos (le_trans hwx hx), Option.some.injEq] at h2
      omega
    · rw [if_neg hwx] at h1
      subst h1
      exact clampIdx_nonneg hlen h2

lemma map_to_cell_eq {x y : Int} {h_lines v_lines : List Int} {col row : Int}
    (hc : clampIdx v_lines x = some col) (hr : clampIdx h_lines y = some row) :
    map_to_cell x y h_lines v_lines = some (col + 1, row) := by
  unfold map_to_cell
  rw [hc, hr]

lemma map_to_cell_inv {x y : Int} {h_lines v_lines : List Int} {m d : Int}
    (h : map_to_cell x y h_lines v_lines = some (m, d)) :
    ∃ col row, clampIdx v_lines x = some col ∧ clampIdx h_lines y = some row ∧
      m = col + 1 ∧ d = row := by
  unfold map_to_cell at h
  cases hc : clampIdx v_lines x with
  | none => rw [hc] at h; simp at h
  | some col =>
    cases hr : clampIdx h_lines y with
    | none => rw [hc, hr] at h; simp at h
    | some row =>
      rw [hc, hr] at h
      simp only [Option.some.injEq, Prod.mk.injEq] at h
      exact ⟨col, row, rfl, rfl, h.1.symm, h.2.symm⟩

/-- C3: for a strictly increasing vertical boundary list with at least two
entries, the Cell Mapper returns month `1 + i` when `v[i] ≤ x < v[i+1]`,
clamps to the last valid interval index `len(v) - 2` for `x` at or beyond
the last boundary, and the symmetric rule holds for `y` against the
horizontal boundaries — the interval case yields the day row index, and
`y` at or beyond the last horizontal boundary clamps the row to
`len(h_lines) - 2`. -/
theorem C3_cell_mapper_interval_and_clamp
    (h_lines v_lines : List Int) (x y : Int)
    (hv : v_lines.Pairwise (· < ·)) (hvlen : 2 ≤ v_lines.length)
    (hh : h_lines ≠ []) :
    (∀ i : Nat, ∀ hi : i + 1 < v_lines.length,
        v_lines.get ⟨i, by omega⟩ ≤ x → x < v_lines.get ⟨i + 1, hi⟩ →
        ∃ row, map_to_cell x y h_lines v_lines = some (1 + (i : Int), row)) ∧
    (∀ w, v_lines.getLast? = some w → w ≤ x →
        ∃ row, map_to_cell x y h_lines v_lines =
          some (((v_lines.length : Int) - 2) + 1, row)) ∧
    (∀ j : Nat, ∀ hj : j + 1 < h_lines.length, h_lines.Pairwise (· < ·) →
        h_lines.get ⟨j, by omega⟩ ≤ y → y < h_lines.get ⟨j + 1, hj⟩ →
        ∃ m, map_to_cell x y h_lines v_lines = some (m, (j : Int))) ∧
    (∀ w, h_lines.Pairwise (· < ·) → h_lines.getLast? = some w → w ≤ y →
        ∃ m, map_to_cell x y h_lines v_lines =
          some (m, (h_lines.length : Int) - 2)) := by
  obtain ⟨row, hrow⟩ := Option.isSome_iff_exists.1 (clampIdx_isSome y hh)
  have hvne : v_lines ≠ [] := by intro h; rw [h] at hvlen; simp at hvlen
  obtain ⟨col, hcol⟩ := Option.isSome_iff_exists.1 (clampIdx_isSome x hvne)
  refine ⟨?_, ?_, ?_, ?_⟩
  · intro i hi h1 h2
    refine ⟨row, ?_⟩
    rw [map_to_cell_eq (clampIdx_of_interval hv hi h1 h2) hrow, add_comm (i : Int) 1]
  · intro w hw hwx
    exact ⟨row, map_to_cell_eq (clampIdx_of_ge_last hv hw hwx) hrow⟩
  · intro j hj hhpw h1 h2
    exact ⟨col + 1, map_to_cell_eq hcol (clampIdx_of_interval hhpw hj h1 h2)⟩
  · intro w hhpw hw hwy
    exact ⟨col + 1, map_to_cell_eq hcol (clampIdx_of_ge_last hhpw hw hwy)⟩

/-- C3 witness: with vertical boundaries `[0, 500, 1000]` a centroid at
`x = 510` lands in interval 1, so the month is 2; and with horizontal
boundaries `[0, 100]` a centroid at `y = 150`, beyond the last boundary,
clamps the row to `len(h_lines) - 2 = 0`. -/
theorem C3_witness :
    (∃ row, map_to_cell 510 50 [0, 100] [0, 500, 1000] =
      some (1 + ((1 : Nat) : Int), row)) ∧
    (∃ m, map_to_cell 510 150 [0, 100] [0, 500, 1000] =
      some (m, (([0, 100] : List Int).length : Int) - 2)) :=
  ⟨(C3_cell_mapper_interval_and_clamp [0, 100] [0, 500, 1000] 510 50
      (by decide) (by decide) (by decide)).1 1 (by decide) (by decide) (by decide),
   (C3_cell_mapper_interval_and_clamp [0, 100] [0, 500, 1000] 510 150
      (by decide) (by decide) (by decide)).2.2.2 100 (by decide) (by decide) (by decide)⟩

/-- C4: for well-formed boundary lists (strictly increasing, at least 2
entries) the Cell Mapper is total, the month is monotone in `x`, and the
day is monotone in `y`. -/
theorem C4_cell_mapper_total_monotone
    (h_lines v_lines : List Int)
    (hh : h_lines.Pairwise (· < ·)) (hv : v_lines.Pairwise (· < ·))
    (hhlen : 2 ≤ h_lines.length) (hvlen : 2 ≤ v_lines.length) :
    (∀ x y, ∃ md, map_to_cell x y h_lines v_lines = some md) ∧
    (∀ x1 x2 y m1 d1 m2 d2, x1 ≤ x2 →
        map_to_cell x1 y h_lines v_lines = some (m1, d1) →
        map_to_cell x2 y h_lines v_lines = some (m2, d2) → m1 ≤ m2) ∧
    (∀ x y1 y2 m1 d1 m2 d2, y1 ≤ y2 →
        map_to_cell x y1 h_lines v_lines = some (m1, d1) →
        map_to_cell x y2 h_lines v_lines = some (m2, d2) → d1 ≤ d2) := by
  have hhne : h_lines ≠ [] := by intro h; rw [h] at hhlen; simp at hhlen
  have hvne : v_lines ≠ [] := by intro h; rw [h] at hvlen; simp at hvlen
  refine ⟨?_, ?_, ?_⟩
  · intro x y
    obtain ⟨col, hcol⟩ := Option.isSome_iff_exists.1 (clampIdx_isSome x hvne)
    obtain ⟨row, hrow⟩ := Option.isSome_iff_exists.1 (clampIdx_isSome y hhne)
    exact ⟨(col + 1, row), map_to_cell_eq hcol hrow⟩
  · intro x1 x2 y m1 d1 m2 d2 hx h1 h2
    obtain ⟨col1, row1, hc1, hr1, hm1, hd1⟩ := map_to_cell_inv h1
    obtain ⟨col2, row2, hc2, hr2, hm2, hd2⟩ := map_to_cell_inv h2
    have := clampIdx_mono hv hvlen hx hc1 hc2
    omega
  · intro x y1 y2 m1 d1 m2 d2 hy h1 h2
    obtain ⟨col1, row1, hc1, hr1, hm1, hd1⟩ := map_to_cell_inv h1
    obtain ⟨col2, row2, hc2, hr2, hm2, hd2⟩ := map_to_cell_inv h2
    have := clampIdx_mono hh hhlen hy hr1 hr2
    omega

/-- C4 witness at a concrete well-formed grid. -/
theorem C4_witness :
    ∃ md, map_to_cell 510 50 [0, 100] [0, 500, 1000] = some md :=
  (C4_cell_mapper_total_monotone [0, 100] [0, 500, 1000]
    (by decide) (by decide) (by decide) (by decide)).1 510 50

lemma clampIdx_singleton (b z : Int) :
    clampIdx [b] z = some (if b ≤ z then -1 else 0) := by
  have h1 : scanIdx [b] z = none := rfl
  have h2 : ([b] : List Int).getLast? = some b := rfl
  rw [clampIdx_eq_scan_none h1 h2]
  norm_num

/-- C10: `map_to_cell` never raises on non-empty boundary lists; a
single-element vertical list `[b]` yields month 1 for `x < b` and month 0
(column index −1) for `x ≥ b`, and a single-element horizontal list `[c]`
yields day −1 for `y ≥ c` — out-of-range cells are produced silently
instead of failing fast. -/
theorem C10_single_boundary_silent (x y b c : Int) (h_lines v_lines : List Int)
    (hh : h_lines ≠ []) (hv : v_lines ≠ []) :
    (map_to_cell x y h_lines v_lines).isSome ∧
    (∃ row, map_to_cell x y h_lines [b] = some (if x < b then 1 else 0, row)) ∧
    (∃ m, map_to_cell x y [c] v_lines = some (m, if y < c then 0 else -1)) := by
  refine ⟨?_, ?_, ?_⟩
  · obtain ⟨col, hcol⟩ := Option.isSome_iff_exists.1 (clampIdx_isSome x hv)
    obtain ⟨row, hrow⟩ := Option.isSome_iff_exists.1 (clampIdx_isSome y hh)
    rw [map_to_cell_eq hcol hrow]
    rfl
  · obtain ⟨row, hrow⟩ := Option.isSome_iff_exists.1 (clampIdx_isSome y hh)
    refine ⟨row, ?_⟩
    have heq : ((if b ≤ x then (-1 : Int) else 0) + 1) = (if x < b then 1 else 0) := by
      by_cases hbx : b ≤ x
      · rw [if_pos hbx, if_neg (not_lt.2 hbx)]; norm_num
      · rw [if_neg hbx, if_pos (not_le.1 hbx)]; norm_num
    rw [map_to_cell_eq (clampIdx_singleton b x) hrow, heq]
  · obtain ⟨col, hcol⟩ := Option.isSome_iff_exists.1 (clampIdx_isSome x hv)
    refine ⟨col + 1, ?_⟩
    have heq : (if c ≤ y then (-1 : Int) else 0) = (if y < c then 0 else -1) := by
      by_cases hcy : c ≤ y
      · rw [if_pos hcy, if_neg (not_lt.2 hcy)]
      · rw [if_neg hcy, if_pos (not_le.1 hcy)]
    rw [map_to_cell_eq hcol (clampIdx_singleton c y), heq]

/-- C10 witness: concrete single-element boundary lists. -/
theorem C10_witness :
    (map_to_cell 7 3 [5] [5]).isSome ∧
    (∃ row, map_to_cell 7 3 [5] [5] = some (if (7 : Int) < 5 then 1 else 0, row)) ∧
    (∃ m, map_to_cell 7 3 [5] [5] = some (m, if (3 : Int) < 5 then 0 else -1)) :=
  C10_single_boundary_silent 7 3 5 5 [5] [5] (by decide) (by decide)

/-! ## Pictogram Locator: acceptance characterization (C9) -/

lemma find_icons_point (cnt : Contour) :
    (if min_area < cnt.area ∧ cnt.area < max_area then
      if (if 0 < min cnt.w cnt.h
          then ((max cnt.w cnt.h : Nat) : ℚ) / ((min cnt.w cnt.h : Nat) : ℚ)
          else 999) < 3 then
        if 0 < cnt.m00 then
          some (ratTrunc (cnt.m10 / cnt.m00), ratTrunc (cnt.m01 / cnt.m00))
        else none
      else none
    else none) = if iconAccept cnt then some (iconCentroid cnt) else none := by
  by_cases h1 : min_area < cnt.area ∧ cnt.area < max_area
  · rw [if_pos h1]
    by_cases h2 : 0 < min cnt.w cnt.h
    · rw [if_pos h2]
      by_cases h3 : ((max cnt.w cnt.h : Nat) : ℚ) / ((min cnt.w cnt.h : Nat) : ℚ) < 3
      · rw [if_pos h3]
        by_cases h4 : 0 < cnt.m00
        · rw [if_pos h4, if_pos ⟨h1.1, h1.2, h2, h3, h4⟩]
          rfl
        · rw [if_neg h4, if_neg (fun hacc => h4 hacc.2.2.2.2)]
      · rw [if_neg h3, if_neg (fun hacc => h3 hacc.2.2.2.1)]
    · rw [if_neg h2, if_neg (show ¬(999 : ℚ) < 3 by norm_num),
        if_neg (fun hacc => h2 hacc.2.2.1)]
  · rw [if_neg h1, if_neg (fun hacc => h1 ⟨hacc.1, hacc.2.1⟩)]

lemma find_icons_eq (contours : List Contour) :
    find_icons contours =
      (contours.filter (fun cnt => decide (iconAccept cnt))).map iconCentroid := by
  induction contours with
  | nil => rfl
  | cons cnt rest ih =>
    have hpt := find_icons_point cnt
    by_cases h : iconAccept cnt
    · rw [if_pos h] at hpt
      simp only [find_icons, List.filterMap_cons] at *
      rw [hpt, List.filter_cons_of_pos (by simpa using h)]
      simp only [List.map_cons]
      exact congrArg _ ih
    · rw [if_neg h] at hpt
      simp only [find_icons, List.filterMap_cons] at *
      rw [hpt, List.filter_cons_of_neg (by simpa using h)]
      exact ih

/-- C9: a contour is accepted exactly when its area lies strictly between
the bounds, its aspect ratio is defined (both dimensions positive) and
below 3, and its zeroth moment is positive; a zero-width or zero-height
box is rejected, and the divisors of the aspect and centroid computations
are never zero on accepted contours. -/
theorem C9_icon_filter (contours : List Contour) :
    (find_icons contours =
      (contours.filter (fun cnt => decide (iconAccept cnt))).map iconCentroid) ∧
    (∀ cnt : Contour, cnt.w = 0 ∨ cnt.h = 0 → ¬ iconAccept cnt) ∧
    (∀ cnt : Contour, iconAccept cnt →
      (0 : ℚ) < ((min cnt.w cnt.h : Nat) : ℚ) ∧ cnt.m00 ≠ 0) := by
  refine ⟨find_icons_eq contours, ?_, ?_⟩
  · intro cnt hdim hacc
    have h2 := hacc.2.2.1
    rcases hdim with h | h <;> simp [h] at h2
  · intro cnt hacc
    refine ⟨?_, ne_of_gt hacc.2.2.2.2⟩
    have h2 := hacc.2.2.1
    exact_mod_cast Nat.cast_pos.2 h2

/-- C9 witness: a concrete 10×10 contour of area 200 and unit mass is
accepted, with positive divisors. -/
theorem C9_witness :
    (0 : ℚ) < ((min (⟨200, 10, 10, 1, 150, 50⟩ : Contour).w
      (⟨200, 10, 10, 1, 150, 50⟩ : Contour).h : Nat) : ℚ) ∧
    (⟨200, 10, 10, 1, 150, 50⟩ : Contour).m00 ≠ 0 :=
  (C9_icon_filter []).2.2 ⟨200, 10, 10, 1, 150, 50⟩
    ⟨by norm_num [min_area], by norm_num [max_area], by norm_num, by norm_num, by norm_num⟩

/-! ## Grid Detector clustering: idempotence (C8) -/

lemma ediv_le_of_le_mul {s n b : Int} (hn : 0 < n) (h : s ≤ n * b) : s / n ≤ b := by
  by_contra hcon
  have h1 : b + 1 ≤ s / n := by omega
  have h2 : (b + 1) * n ≤ s := (Int.le_ediv_iff_mul_le hn).1 h1
  nlinarith

lemma le_ediv_of_mul_le {s n a : Int} (hn : 0 < n) (h : n * a ≤ s) : a ≤ s / n :=
  (Int.le_ediv_iff_mul_le hn).2 (by linarith [h])

lemma le_tdiv_of_mul_le {s n a : Int} (hn : 0 < n) (h : n * a ≤ s) : a ≤ Int.tdiv s n := by
  rcases le_or_lt 0 s with hs | hs
  · rw [Int.tdiv_eq_ediv hs hn.le]
    exact le_ediv_of_mul_le hn h
  · have hrw : Int.tdiv s n = -Int.tdiv (-s) n := by
      rw [← Int.neg_tdiv, neg_neg]
    rw [hrw, le_neg]
    rw [Int.tdiv_eq_ediv (by omega) hn.le]
    exact ediv_le_of_le_mul hn (by linarith)

lemma tdiv_le_of_le_mul {s n b : Int} (hn : 0 < n) (h : s ≤ n * b) : Int.tdiv s n ≤ b := by
  rcases le_or_lt 0 s with hs | hs
  · rw [Int.tdiv_eq_ediv hs hn.le]
    exact ediv_le_of_le_mul hn h
  · have hrw : Int.tdiv s n = -Int.tdiv (-s) n := by
      rw [← Int.neg_tdiv, neg_neg]
    rw [hrw, neg_le]
    rw [Int.tdiv_eq_ediv (by omega) hn.le]
    exact le_ediv_of_mul_le hn (by linarith)

lemma intMean_lb {l : List Int} (hne : l ≠ []) {a : Int} (ha : ∀ x ∈ l, a ≤ x) :
    a ≤ intMean l := by
  have hlen : 0 < l.length := List.length_pos.2 hne
  have hsum : (l.length : Int) * a ≤ l.sum := by
    have := List.card_nsmul_le_sum l a ha
    simpa [nsmul_eq_mul] using this
  exact le_tdiv_of_mul_le (by exact_mod_cast hlen) hsum

lemma intMean_ub {l : List Int} (hne : l ≠ []) {b : Int} (hb : ∀ x ∈ l, x ≤ b) :
    intMean l ≤ b := by
  have hlen : 0 < l.length := List.length_pos.2 hne
  have hsum : l.sum ≤ (l.length : Int) * b := by
    have := List.sum_le_card_nsmul l b hb
    simpa [nsmul_eq_mul] using this
  exact tdiv_le_of_le_mul (by exact_mod_cast hlen) hsum

lemma intMean_singleton (v : Int) : intMean [v] = v := by
  simp [intMean]

lemma chunksGo_head_chunk (t : Int) :
    ∀ (l cur : List Int) (prev : Int),
      ∃ tail cs, chunksGo t cur prev l = (cur ++ tail) :: cs ∧ ∀ x ∈ tail, x ∈ l := by
  intro l
  induction l with
  | nil => exact fun cur prev => ⟨[], [], by simp [chunksGo], by simp⟩
  | cons v vs ih =>
    intro cur prev
    by_cases h : v - prev < t
    · obtain ⟨tail, cs, heq, hmem⟩ := ih (cur ++ [v]) v
      refine ⟨v :: tail, cs, ?_, ?_⟩
      · rw [chunksGo, if_pos h, heq, List.append_assoc]
        rfl
      · intro x hx
        rcases List.mem_cons.1 hx with h1 | h1
        · exact List.mem_cons.2 (Or.inl h1)
        · exact List.mem_cons.2 (Or.inr (hmem x h1))
    · exact ⟨[], chunksGo t [v] v vs, by simp [chunksGo, if_neg h], by simp⟩

lemma sorted_cons_le {a : Int} {l : List Int}
    (h : List.Chain' (· ≤ ·) (a :: l)) : ∀ x ∈ a :: l, a ≤ x := by
  have hpw : (a :: l).Pairwise (· ≤ ·) := List.chain'_iff_pairwise.1 h
  intro x hx
  rcases List.mem_cons.1 hx with h1 | h1
  · exact h1 ▸ le_rfl
  · exact (List.pairwise_cons.1 hpw).1 x h1

lemma chunksGo_means_chain (t : Int) :
    ∀ (l cur : List Int) (prev : Int),
      List.Chain' (· ≤ ·) (prev :: l) →
      cur ≠ [] → (∀ x ∈ cur, x ≤ prev) →
      List.Chain' (fun a b => a + t ≤ b) ((chunksGo t cur prev l).map intMean) := by
  intro l
  induction l with
  | nil =>
    intro cur prev hs hne hub
    simp [chunksGo]
  | cons v vs ih =>
    intro cur prev hs hne hub
    have hpv : prev ≤ v := (List.chain'_cons.1 hs).1
    have hs' : List.Chain' (· ≤ ·) (v :: vs) := (List.chain'_cons.1 hs).2
    by_cases h : v - prev < t
    · rw [chunksGo, if_pos h]
      refine ih (cur ++ [v]) v hs' (by simp) ?_
      intro x hx
      rcases List.mem_append.1 hx with h1 | h1
      · exact le_trans (hub x h1) hpv
      · simp at h1
        exact h1 ▸ le_rfl
    · rw [chunksGo, if_neg h]
      rw [List.map_cons]
      refine List.chain'_cons'.2 ⟨?_, ih [v] v hs' (by simp) (by simp)⟩
      intro y hy
      obtain ⟨tail, cs, heq, hmem⟩ := chunksGo_head_chunk t vs [v] v
      rw [heq] at hy
      simp only [List.map_cons, List.head?_cons, Option.mem_def, Option.some.injEq] at hy
      have hlb : v ≤ intMean (([v] ++ tail)) := by
        refine intMean_lb (by simp) ?_
        intro x hx
        rcases List.mem_append.1 hx with h1 | h1
        · simp at h1
          exact h1 ▸ le_rfl
        · exact sorted_cons_le hs' x (List.mem_cons.2 (Or.inr (hmem x h1)))
      have hcub : intMean cur ≤ prev := intMean_ub hne hub
      have hgap : prev + t ≤ v := by omega
      omega

lemma sortInt_eq_self {l : List Int} (h : List.Chain' (· ≤ ·) l) : sortInt l = l :=
  List.Sorted.insertionSort_eq (List.chain'_iff_pairwise.1 h)

lemma sortInt_sorted (l : List Int) : List.Chain' (· ≤ ·) (sortInt l) :=
  List.chain'_iff_pairwise.2 (List.sorted_insertionSort (· ≤ ·) l)

lemma cluster_gaps (t : Int) (ht : 0 < t) (values : List Int) :
    List.Chain' (fun a b => a + t ≤ b) (cluster t values) := by
  unfold cluster
  cases hsv : sortInt values with
  | nil => simp
  | cons v vs =>
    have hsorted : List.Chain' (· ≤ ·) (v :: vs) := hsv ▸ sortInt_sorted values
    have hchain := chunksGo_means_chain t vs [v] v hsorted (by simp) (by simp)
    have hmsorted : List.Chain' (· ≤ ·) ((chunksGo t [v] v vs).map intMean) :=
      hchain.imp (fun hab => by omega)
    show List.Chain' (fun a b => a + t ≤ b) (sortInt ((chunksGo t [v] v vs).map intMean))
    rw [sortInt_eq_self hmsorted]
    exact hchain

lemma cluster_eq_of_gaps (t : Int) (ht : 0 < t) {l : List Int}
    (h : List.Chain' (fun a b => a + t ≤ b) l) : cluster t l = l := by
  have hsorted : List.Chain' (· ≤ ·) l := h.imp (fun hab => by omega)
  unfold cluster
  rw [sortInt_eq_self hsorted]
  cases l with
  | nil => rfl
  | cons v vs =>
    show sortInt ((chunksGo t [v] v vs).map intMean) = v :: vs
    have hsingles : ∀ (rest : List Int) (p : Int),
        List.Chain' (fun a b => a + t ≤ b) (p :: rest) →
        chunksGo t [p] p rest = (p :: rest).map (fun z => [z]) := by
      intro rest
      induction rest with
      | nil => intro p _; simp [chunksGo]
      | cons w ws ihr =>
        intro p hp
        have h1 : p + t ≤ w := (List.chain'_cons.1 hp).1
        have h2 : ¬(w - p < t) := by omega
        rw [chunksGo, if_neg h2, ihr w (List.chain'_cons.1 hp).2]
        rfl
    rw [hsingles vs v h, List.map_map]
    have : (intMean ∘ fun z => [z]) = id := by
      funext z
      simp [intMean_singleton]
    rw [this, List.map_id, sortInt_eq_self hsorted]

/-- C8: the Grid Detector's position clustering with merge threshold 10 is
idempotent — clustering an already-clustered list returns it unchanged. -/
theorem C8_cluster_idempotent (values : List Int) :
    cluster 10 (cluster 10 values) = cluster 10 values :=
  cluster_eq_of_gaps 10 (by norm_num) (cluster_gaps 10 (by norm_num) values)

/-! ## Page Parser characterization (C1, C2) -/

lemma pairLe_of_not_gt {a b : Int × Int} (h : pairLe a b) (hne : a ≠ b) : pairLt a b := by
  unfold pairLe at h
  unfold pairLt
  rcases h with h | ⟨h1, h2⟩
  · exact Or.inl h
  · rcases lt_or_eq_of_le h2 with h3 | h3
    · exact Or.inr ⟨h1, h3⟩
    · exact absurd (Prod.ext h1 h3) hne

lemma sorted_set_mem (l : List (Int × Int)) (md : Int × Int) :
    md ∈ sorted_set l ↔ md ∈ l := by
  unfold sorted_set
  rw [List.mem_dedup]
  exact (List.perm_insertionSort pairLe l).mem_iff

lemma sorted_set_nodup (l : List (Int × Int)) : (sorted_set l).Nodup :=
  List.nodup_dedup _

lemma sorted_set_pairwise (l : List (Int × Int)) :
    List.Pairwise pairLt (sorted_set l) := by
  have hle : List.Pairwise pairLe (sorted_set l) :=
    List.Pairwise.sublist (List.dedup_sublist _) (List.sorted_insertionSort pairLe l)
  have hne : List.Pairwise (fun a b => a ≠ b) (sorted_set l) := sorted_set_nodup l
  exact (hle.and hne).imp (fun h => pairLe_of_not_gt h.1 h.2)

lemma page_dates_mem (img : PageImage) (wt : WasteType) (h_lines v_lines : List Int)
    (md : Int × Int) :
    md ∈ page_dates img wt h_lines v_lines ↔
      ∃ xy ∈ find_icons (img.contours wt),
        map_to_cell xy.1 xy.2 h_lines v_lines = some md ∧ month_day_ok md := by
  unfold page_dates
  rw [List.mem_filterMap]
  constructor
  · rintro ⟨xy, hmem, hf⟩
    refine ⟨xy, hmem, ?_⟩
    cases hc : map_to_cell xy.1 xy.2 h_lines v_lines with
    | none => rw [hc] at hf; exact Option.noConfusion hf
    | some md' =>
      rw [hc] at hf
      change (if month_day_ok md' then some md' else none) = some md at hf
      by_cases hok : month_day_ok md'
      · rw [if_pos hok] at hf
        cases hf
        exact ⟨rfl, hok⟩
      · rw [if_neg hok] at hf
        exact Option.noConfusion hf
  · rintro ⟨xy, hmem, hc, hok⟩
    refine ⟨xy, hmem, ?_⟩
    rw [hc]
    change (if month_day_ok md then some md else none) = some md
    rw [if_pos hok]

lemma parse_calendar_page_some {img : PageImage} {r : WasteType → List String}
    (h : parse_calendar_page img = some r) :
    ¬((cluster 10 img.rawH).length < 30 ∨ (cluster 10 img.rawV).length < 10) ∧
    r = fun wt =>
      (sorted_set (page_dates img wt (cluster 10 img.rawH) (cluster 10 img.rawV))).map
        fmtMD := by
  unfold parse_calendar_page at h
  by_cases hc : (cluster 10 img.rawH).length < 30 ∨ (cluster 10 img.rawV).length < 10
  · rw [if_pos hc] at h
    exact Option.noConfusion h
  · rw [if_neg hc] at h
    simp only [Option.some.injEq] at h
    exact ⟨hc, h.symm⟩

/-- C1: when a page passes the calendar check, the parser's result maps
each registered waste type to the `"m.d"`-formatted list obtained from its
detected centroids via the Cell Mapper, filtered to month 1–12 and day
1–31, with duplicate (month, day) pairs removed and the list strictly
ascending in the (month, day) lexicographic order. -/
theorem C1_page_parse_result (img : PageImage) (r : WasteType → List String)
    (h : parse_calendar_page img = some r) (wt : WasteType) :
    ∃ ds : List (Int × Int),
      r wt = ds.map fmtMD ∧
      ds.Nodup ∧ List.Pairwise pairLt ds ∧
      (∀ md, md ∈ ds ↔
        ∃ xy ∈ find_icons (img.contours wt),
          map_to_cell xy.1 xy.2 (cluster 10 img.rawH) (cluster 10 img.rawV) = some md ∧
          month_day_ok md) := by
  obtain ⟨hgrid, hr⟩ := parse_calendar_page_some h
  refine ⟨sorted_set (page_dates img wt (cluster 10 img.rawH) (cluster 10 img.rawV)),
    by rw [hr], sorted_set_nodup _, sorted_set_pairwise _, ?_⟩
  intro md
  rw [sorted_set_mem, page_dates_mem]

/-- C2: the Page Parser returns null exactly when the clustered horizontal
boundary list has fewer than 30 entries or the vertical one fewer than 10;
and the Document Assembler leaves the districts mapping unchanged on such
a page and continues with the remaining pages. -/
theorem C2_null_and_skip :
    (∀ img, parse_calendar_page img = none ↔
      ((cluster 10 img.rawH).length < 30 ∨ (cluster 10 img.rawV).length < 10)) ∧
    (∀ year ds p, parse_calendar_page p.image = none → process_page year ds p = ds) ∧
    (∀ year ds p rest, parse_calendar_page p.image = none →
      (p :: rest).foldl (process_page year) ds = rest.foldl (process_page year) ds) := by
  have hnone : ∀ year ds p, parse_calendar_page p.image = none → process_page year ds p = ds := by
    intro year ds p h
    unfold process_page
    rw [h]
  refine ⟨?_, hnone, ?_⟩
  · intro img
    unfold parse_calendar_page
    by_cases hc : (cluster 10 img.rawH).length < 30 ∨ (cluster 10 img.rawV).length < 10
    · rw [if_pos hc]
      simp [hc]
    · rw [if_neg hc]
      simp [hc]
  · intro year ds p rest h
    rw [List.foldl_cons, hnone year ds p h]

lemma gapsOKB_chain {t : Int} : ∀ {l : List Int},
    gapsOKB t l = true → List.Chain' (fun a b => a + t ≤ b) l := by
  intro l
  induction l with
  | nil => intro _; simp
  | cons a l ih =>
    cases l with
    | nil => intro _; simp
    | cons b rest =>
      intro h
      rw [gapsOKB, Bool.and_eq_true, decide_eq_true_eq] at h
      exact List.chain'_cons.2 ⟨h.1, ih h.2⟩

lemma cluster_testRawH : cluster 10 testRawH = testRawH :=
  cluster_eq_of_gaps 10 (by norm_num) (gapsOKB_chain (by decide))

lemma cluster_testRawV : cluster 10 testRawV = testRawV :=
  cluster_eq_of_gaps 10 (by norm_num) (gapsOKB_chain (by decide))

lemma find_icons_testCnt : find_icons [testCnt] = [(150, 3150)] := by
  rw [find_icons_eq]
  have hacc : iconAccept testCnt :=
    ⟨by norm_num [min_area, testCnt], by norm_num [max_area, testCnt],
     by norm_num [testCnt], by norm_num [testCnt], by norm_num [testCnt]⟩
  rw [List.filter_cons_of_pos (by simpa using hacc), List.filter_nil,
    List.map_cons, List.map_nil]
  have h1 : iconCentroid testCnt = (150, 3150) := by
    unfold iconCentroid testCnt
    norm_num
    constructor <;> decide
  rw [h1]

lemma parse_test : parse_calendar_page testImg = some testR := by
  unfold parse_calendar_page
  have hH : cluster 10 testImg.rawH = testRawH := cluster_testRawH
  have hV : cluster 10 testImg.rawV = testRawV := cluster_testRawV
  rw [hH, hV, if_neg (by decide : ¬(testRawH.length < 30 ∨ testRawV.length < 10))]
  congr 1
  funext wt
  cases wt with
  | biotonne =>
    have hc : testImg.contours WasteType.biotonne = [testCnt] := rfl
    have hpd : page_dates testImg WasteType.biotonne testRawH testRawV = [(2, 31)] := by
      unfold page_dates
      rw [hc, find_icons_testCnt]
      decide
    rw [hpd]
    decide
  | restmuell => decide
  | papiertonne => decide
  | gelber_sack => decide

/-- C1 witness: the concrete calendar page `testImg`. -/
theorem C1_witness :
    ∃ ds : List (Int × Int),
      testR WasteType.biotonne = ds.map fmtMD ∧
      ds.Nodup ∧ List.Pairwise pairLt ds ∧
      (∀ md, md ∈ ds ↔
        ∃ xy ∈ find_icons (testImg.contours WasteType.biotonne),
          map_to_cell xy.1 xy.2 (cluster 10 testImg.rawH) (cluster 10 testImg.rawV) = some md ∧
          month_day_ok md) :=
  C1_page_parse_result testImg testR parse_test WasteType.biotonne

/-- C2 witness: a coverless page with no grid lines is skipped and leaves
the districts mapping unchanged. -/
theorem C2_witness :
    parse_calendar_page emptyImg = none ∧
    process_page 2026 [] ⟨"Cover", emptyImg⟩ = [] := by
  have hnone : parse_calendar_page emptyImg = none :=
    (C2_null_and_skip.1 emptyImg).mpr (by decide)
  exact ⟨hnone, C2_null_and_skip.2.1 2026 [] ⟨"Cover", emptyImg⟩ hnone⟩

/-! ## Dictionary lemmas for the districts mapping (C6) -/

lemma find?_insertMap_self (d : Districts) (k : String) (v : List Event)
    (hany : d.any (fun q => q.1 == k) = true) :
    (d.map (fun p => if p.1 == k then (k, v) else p)).find? (fun p => p.1 == k) =
      some (k, v) := by
  induction d with
  | nil => simp at hany
  | cons p rest ih =>
    by_cases hp : p.1 == k
    · rw [List.map_cons, if_pos hp]
      exact List.find?_cons_of_pos _ (by simp)
    · rw [List.map_cons, if_neg hp,
        List.find?_cons_of_neg _ (by simpa using hp)]
      have hr : rest.any (fun q => q.1 == k) = true := by
        rcases List.any_eq_true.1 hany with ⟨q, hq, hqk⟩
        rcases List.mem_cons.1 hq with h1 | h1
        · exact absurd (h1 ▸ hqk) hp
        · exact List.any_eq_true.2 ⟨q, h1, hqk⟩
      exact ih hr

lemma find?_insertMap_other (d : Districts) (k k' : String) (v : List Event)
    (h : k' ≠ k) :
    (d.map (fun p => if p.1 == k then (k, v) else p)).find? (fun p => p.1 == k') =
      d.find? (fun p => p.1 == k') := by
  induction d with
  | nil => rfl
  | cons p rest ih =>
    by_cases hp : p.1 == k
    · have hpk : p.1 = k := by simpa using hp
      rw [List.map_cons, if_pos hp,
        List.find?_cons_of_neg _ (by simp; exact fun hh => h hh.symm),
        List.find?_cons_of_neg _ (by simp [hpk]; exact fun hh => h hh.symm), ih]
    · rw [List.map_cons, if_neg hp]
      by_cases hp' : p.1 == k'
      · rw [List.find?_cons_of_pos (p := fun (q : String × List Event) => q.1 == k') _ hp',
          List.find?_cons_of_pos (p := fun (q : String × List Event) => q.1 == k') _ hp']
      · rw [List.find?_cons_of_neg (p := fun (q : String × List Event) => q.1 == k') _ hp',
          List.find?_cons_of_neg (p := fun (q : String × List Event) => q.1 == k') _ hp', ih]

lemma lookupD_dictInsert_self (d : Districts) (k : String) (v : List Event) :
    lookupD (dictInsert d k v) k = some v := by
  unfold dictInsert lookupD
  by_cases hany : d.any (fun q => q.1 == k) = true
  · rw [if_pos hany, find?_insertMap_self d k v hany]
    rfl
  · rw [if_neg hany, List.find?_append,
      List.find?_eq_none.2 (fun x hx hxk => hany (List.any_eq_true.2 ⟨x, hx, hxk⟩))]
    simp

lemma lookupD_dictInsert_other (d : Districts) (k k' : String) (v : List Event)
    (h : k' ≠ k) : lookupD (dictInsert d k v) k' = lookupD d k' := by
  unfold dictInsert lookupD
  by_cases hany : d.any (fun q => q.1 == k) = true
  · rw [if_pos hany, find?_insertMap_other d k k' v h]
  · rw [if_neg hany, List.find?_append]
    have hnil : ([(k, v)] : Districts).find? (fun p => p.1 == k') = none := by
      rw [List.find?_eq_none]
      intro x hx
      rcases List.mem_singleton.1 hx with rfl
      simp
      exact fun hh => h hh.symm
    rw [hnil]
    cases d.find? (fun p => p.1 == k') <;> rfl

lemma keys_insertMap (d : Districts) (k : String) (v : List Event) :
    (d.map (fun p => if p.1 == k then (k, v) else p)).map Prod.fst = d.map Prod.fst := by
  induction d with
  | nil => rfl
  | cons p rest ih =>
    by_cases hp : p.1 == k
    · have hpk : p.1 = k := by simpa using hp
      rw [List.map_cons, if_pos hp, List.map_cons, List.map_cons, ih]
      simp [hpk]
    · rw [List.map_cons, if_neg hp, List.map_cons, List.map_cons, ih]

lemma keys_dictInsert_mem (d : Districts) (k : String) (v : List Event) (m : String) :
    m ∈ (dictInsert d k v).map Prod.fst ↔ m ∈ d.map Prod.fst ∨ m = k := by
  unfold dictInsert
  by_cases hany : d.any (fun q => q.1 == k) = true
  · rw [if_pos hany, keys_insertMap]
    constructor
    · exact Or.inl
    · rintro (h | rfl)
      · exact h
      · rcases List.any_eq_true.1 hany with ⟨q, hq, hqk⟩
        have : q.1 = m := by simpa using hqk
        exact this ▸ List.mem_map.2 ⟨q, hq, rfl⟩
  · rw [if_neg hany, List.map_append]
    simp

lemma keys_dictInsert_nodup (d : Districts) (k : String) (v : List Event)
    (h : (d.map Prod.fst).Nodup) : ((dictInsert d k v).map Prod.fst).Nodup := by
  unfold dictInsert
  by_cases hany : d.any (fun q => q.1 == k) = true
  · rw [if_pos hany, keys_insertMap]
    exact h
  · rw [if_neg hany, List.map_append]
    rw [List.nodup_append]
    refine ⟨h, by simp, ?_⟩
    intro m hm hmk
    simp only [List.map_cons, List.map_nil, List.mem_singleton] at hmk
    subst hmk
    rcases List.mem_map.1 hm with ⟨q, hq, hqk⟩
    exact hany (List.any_eq_true.2 ⟨q, hq, by simp [hqk]⟩)

lemma foldl_dictInsert_lookup_mem (targets : List String) (ds : Districts)
    (v : List Event) (t : String) (ht : t ∈ targets) :
    lookupD (targets.foldl (fun acc u => dictInsert acc u v) ds) t = some v := by
  induction targets generalizing ds with
  | nil => simp at ht
  | cons t0 rest ih =>
    rw [List.foldl_cons]
    by_cases hmem : t ∈ rest
    · exact ih (dictInsert ds t0 v) hmem
    · have ht0 : t = t0 := by
        rcases List.mem_cons.1 ht with h | h
        · exact h
        · exact absurd h hmem
      subst ht0
      have hpres : ∀ (targets2 : List String) (ds2 : Districts), t ∉ targets2 →
          lookupD (targets2.foldl (fun acc u => dictInsert acc u v) ds2) t =
            lookupD ds2 t := by
        intro targets2
        induction targets2 with
        | nil => intro ds2 _; rfl
        | cons u rest2 ih2 =>
          intro ds2 hnot
          rw [List.foldl_cons, ih2 _ (fun hh => hnot (List.mem_cons.2 (Or.inr hh))),
            lookupD_dictInsert_other ds2 u t v (fun hh => hnot (hh ▸ List.mem_cons.2 (Or.inl rfl)))]
      rw [hpres rest (dictInsert ds t v) hmem, lookupD_dictInsert_self]

lemma foldl_dictInsert_keys_mem (targets : List String) (ds : Districts)
    (v : List Event) (m : String) :
    m ∈ (targets.foldl (fun acc u => dictInsert acc u v) ds).map Prod.fst ↔
      m ∈ ds.map Prod.fst ∨ m ∈ targets := by
  induction targets generalizing ds with
  | nil => simp
  | cons t0 rest ih =>
    rw [List.foldl_cons, ih, keys_dictInsert_mem]
    simp only [List.mem_cons]
    tauto

lemma foldl_dictInsert_keys_nodup (targets : List String) (ds : Districts)
    (v : List Event) (h : (ds.map Prod.fst).Nodup) :
    ((targets.foldl (fun acc u => dictInsert acc u v) ds).map Prod.fst).Nodup := by
  induction targets generalizing ds with
  | nil => exact h
  | cons t0 rest ih =>
    rw [List.foldl_cons]
    exact ih _ (keys_dictInsert_nodup ds t0 v h)

/-- C6: when the resolved locality name of a successfully parsed page
matches an expansion key, the page writes exactly one record per expansion
target, all with value-equal (freshly copied) event lists, and the keys
afterwards are the previous keys plus the targets — in particular nothing
is written under the un-expanded resolved name unless it is itself a
target. -/
theorem C6_expansion (year : Nat) (ds : Districts) (p : Page)
    (r : WasteType → List String) (targets : List String)
    (hp : parse_calendar_page p.image = some r)
    (he : findExpansion p.district = some targets) :
    (∀ t ∈ targets, lookupD (process_page year ds p) t =
      some ((buildEvents year r).map copyEvent)) ∧
    ((buildEvents year r).map copyEvent = buildEvents year r) ∧
    (∀ m, m ∈ (process_page year ds p).map Prod.fst ↔
      m ∈ ds.map Prod.fst ∨ m ∈ targets) ∧
    ((ds.map Prod.fst).Nodup →
      ((process_page year ds p).map Prod.fst).Nodup ∧
      ∀ t ∈ targets, ((process_page year ds p).map Prod.fst).count t = 1) := by
  have hproc : process_page year ds p =
      targets.foldl (fun acc t => dictInsert acc t ((buildEvents year r).map copyEvent)) ds := by
    unfold process_page
    rw [hp, he]
  have hcopy : (buildEvents year r).map copyEvent = buildEvents year r := by
    have : copyEvent = id := funext fun e => rfl
    rw [this, List.map_id]
  refine ⟨?_, hcopy, ?_, ?_⟩
  · intro t ht
    rw [hproc]
    exact foldl_dictInsert_lookup_mem targets ds _ t ht
  · intro m
    rw [hproc]
    exact foldl_dictInsert_keys_mem targets ds _ m
  · intro hnd
    rw [hproc]
    refine ⟨foldl_dictInsert_keys_nodup targets ds _ hnd, ?_⟩
    intro t ht
    refine List.count_eq_one_of_mem (foldl_dictInsert_keys_nodup targets ds _ hnd) ?_
    rw [foldl_dictInsert_keys_mem]
    exact Or.inr ht

/-- C6 witness: the combined page resolved to "Neuastenberg" writes the
same event list under each of the four expansion targets. -/
theorem C6_witness :
    lookupD (process_page 2026 [] expansionPage) "Langewiese" =
      some ((buildEvents 2026 testR).map copyEvent) ∧
    lookupD (process_page 2026 [] expansionPage) "Hoheleye" =
      some ((buildEvents 2026 testR).map copyEvent) ∧
    lookupD (process_page 2026 [] expansionPage) "Neuastenberg" =
      some ((buildEvents 2026 testR).map copyEvent) := by
  have h := (C6_expansion 2026 [] expansionPage testR
    ["Langewiese", "Mollseifen", "Neuastenberg", "Hoheleye"] parse_test (by decide)).1
  exact ⟨h "Langewiese" (by decide), h "Hoheleye" (by decide), h "Neuastenberg" (by decide)⟩

/-! ## Decimal printing and parsing lemmas (C5, C7) -/

lemma digitChar_toNat {n : Nat} (h : n < 10) : (digitChar n).toNat = 48 + n := by
  interval_cases n <;> decide

lemma digitChar_isDigit {n : Nat} (h : n < 10) : isDigitC (digitChar n) = true := by
  unfold isDigitC
  rw [digitChar_toNat h]
  simp
  omega

lemma charsNat_append_digit (a : List Char) (c : Char) :
    charsNat (a ++ [c]) = 10 * charsNat a + digitVal c := by
  unfold charsNat
  rw [List.foldl_append]
  rfl

lemma decimalAux_spec : ∀ fuel n, n < fuel →
    (∀ c ∈ decimalAux fuel n, isDigitC c = true) ∧
    charsNat (decimalAux fuel n) = n ∧
    decimalAux fuel n ≠ [] := by
  intro fuel
  induction fuel with
  | zero => intro n h; omega
  | succ fuel ih =>
    intro n h
    by_cases h10 : n < 10
    · rw [decimalAux, if_pos h10]
      refine ⟨?_, ?_, by simp⟩
      · intro c hc
        rcases List.mem_singleton.1 hc with rfl
        exact digitChar_isDigit h10
      · show charsNat [digitChar n] = n
        unfold charsNat
        simp only [List.foldl_cons, List.foldl_nil]
        unfold digitVal
        rw [digitChar_toNat h10]
        omega
    · rw [decimalAux, if_neg h10]
      have hdiv : n / 10 < fuel := by omega
      obtain ⟨hdig, hval, hne⟩ := ih (n / 10) hdiv
      have hmod : n % 10 < 10 := Nat.mod_lt _ (by omega)
      refine ⟨?_, ?_, by simp⟩
      · intro c hc
        rcases List.mem_append.1 hc with h1 | h1
        · exact hdig c h1
        · rcases List.mem_singleton.1 h1 with rfl
          exact digitChar_isDigit hmod
      · rw [charsNat_append_digit, hval]
        unfold digitVal
        rw [digitChar_toNat hmod]
        omega

lemma decimalChars_digits (n : Nat) : ∀ c ∈ decimalChars n, isDigitC c = true :=
  (decimalAux_spec (n + 1) n (by omega)).1

lemma charsNat_decimalChars (n : Nat) : charsNat (decimalChars n) = n :=
  (decimalAux_spec (n + 1) n (by omega)).2.1

lemma decimalChars_ne_nil (n : Nat) : decimalChars n ≠ [] :=
  (decimalAux_spec (n + 1) n (by omega)).2.2

lemma isDigit_toNat {c : Char} (h : isDigitC c = true) :
    48 ≤ c.toNat ∧ c.toNat ≤ 57 := by
  unfold isDigitC at h
  simp only [Bool.and_eq_true, decide_eq_true_eq] at h
  exact h

lemma digit_ne_dash {c : Char} (h : isDigitC c = true) : c ≠ '-' := by
  intro heq
  have := isDigit_toNat h
  rw [heq] at this
  simp at this

lemma digit_ne_dot {c : Char} (h : isDigitC c = true) : c ≠ '.' := by
  intro heq
  have := isDigit_toNat h
  rw [heq] at this
  simp at this

lemma charsInt_dash (rest : List Char) : charsInt ('-' :: rest) = -(charsNat rest : Int) := rfl

lemma charsInt_of_digits {l : List Char} (h : ∀ c ∈ l, isDigitC c = true) :
    charsInt l = (charsNat l : Int) := by
  cases l with
  | nil => rfl
  | cons c rest =>
    have hc : c ≠ '-' := digit_ne_dash (h c (by simp))
    unfold charsInt
    split
    · rename_i rest' heq
      exfalso
      injection heq with h1 h2
      exact hc h1
    · rfl

lemma charsInt_intChars (m : Int) : charsInt (intChars m) = m := by
  unfold intChars
  by_cases hm : m < 0
  · rw [if_pos hm, charsInt_dash, charsNat_decimalChars]
    omega
  · rw [if_neg hm, charsInt_of_digits (decimalChars_digits _), charsNat_decimalChars]
    omega

lemma intChars_no_dot (m : Int) : ∀ c ∈ intChars m, c ≠ '.' := by
  unfold intChars
  intro c hc
  by_cases hm : m < 0
  · rw [if_pos hm] at hc
    rcases List.mem_cons.1 hc with rfl | h1
    · decide
    · exact digit_ne_dot (decimalChars_digits _ _ h1)
  · rw [if_neg hm] at hc
    exact digit_ne_dot (decimalChars_digits _ _ hc)

lemma splitOnChar_of_not_mem {sep : Char} : ∀ {l : List Char}, (∀ c ∈ l, c ≠ sep) →
    splitOnChar sep l = [l] := by
  intro l
  induction l with
  | nil => intro _; rfl
  | cons c rest ih =>
    intro h
    rw [splitOnChar, if_neg (h c (by simp)), ih (fun x hx => h x (by simp [hx]))]

lemma splitOnChar_append {sep : Char} : ∀ {a : List Char}, (∀ c ∈ a, c ≠ sep) →
    ∀ (rest : List Char), splitOnChar sep (a ++ sep :: rest) = a :: splitOnChar sep rest := by
  intro a
  induction a with
  | nil =>
    intro _ rest
    rw [List.nil_append, splitOnChar, if_pos rfl]
  | cons c a' ih =>
    intro h rest
    rw [List.cons_append, splitOnChar, if_neg (h c (by simp)),
      ih (fun x hx => h x (by simp [hx])) rest]

lemma parseDotMD_fmtMD (md : Int × Int) : parseDotMD (fmtMD md) = md := by
  unfold parseDotMD fmtMD
  show (match splitOnChar '.' (intChars md.1 ++ '.' :: intChars md.2) with
    | [a, b] => (charsInt a, charsInt b)
    | _ => ((0 : Int), (0 : Int))) = md
  rw [splitOnChar_append (intChars_no_dot md.1) _,
    splitOnChar_of_not_mem (intChars_no_dot md.2)]
  show (charsInt (intChars md.1), charsInt (intChars md.2)) = md
  rw [charsInt_intChars, charsInt_intChars]

/-! ## C5: event dates (counterexample and amended invariant) -/

lemma process_page_eq_noexp (year : Nat) (ds : Districts) (p : Page)
    (r : WasteType → List String)
    (hp : parse_calendar_page p.image = some r)
    (he : findExpansion p.district = none) :
    process_page year ds p = dictInsert ds p.district (buildEvents year r) := by
  unfold process_page
  rw [hp, he]

/-- C5 counterexample: the fully-parsed concrete page `testPage` carries a
biotonne pictogram in the cell (month 2, day 31), so the Document
Assembler emits an Event dated "2026-02-31" — a date that does not exist
in the 2026 calendar.  The claim that every Event's date denotes an
existing calendar day is therefore false. -/
theorem C5_counterexample :
    lookupD (process_page 2026 [] testPage) "Testort" =
      some [⟨"2026-02-31", "biotonne", "Biotonne"⟩] ∧
    parseDashDate "2026-02-31" = some (2026, 2, 31) ∧
    ¬ isRealDate 2026 2 31 := by
  have h1 := process_page_eq_noexp 2026 [] testPage testR parse_test (by decide)
  rw [h1]
  exact ⟨by decide, by decide, by decide⟩

/-- C5 amended: every Event the Document Assembler constructs carries a
date string "YYYY-MM-DD" built from a kept pair with month ∈ [1,12] and
day ∈ [1,31]; the pair need not denote an existing calendar day (e.g.,
February 31 can occur). -/
theorem C5_amended_event_dates (year : Nat) (img : PageImage)
    (r : WasteType → List String) (hp : parse_calendar_page img = some r)
    (e : Event) (he : e ∈ buildEvents year r) :
    ∃ m d : Int, 1 ≤ m ∧ m ≤ 12 ∧ 1 ≤ d ∧ d ≤ 31 ∧ e.date = dateString year m d := by
  obtain ⟨-, hr⟩ := parse_calendar_page_some hp
  unfold buildEvents at he
  rw [(List.perm_insertionSort eventLe _).mem_iff] at he
  rw [List.mem_flatMap] at he
  obtain ⟨wt, -, hmem⟩ := he
  rw [List.mem_map] at hmem
  obtain ⟨s, hs, hev⟩ := hmem
  rw [hr] at hs
  rw [List.mem_map] at hs
  obtain ⟨md, hmd, rfl⟩ := hs
  rw [sorted_set_mem, page_dates_mem] at hmd
  obtain ⟨-, -, -, hok⟩ := hmd
  refine ⟨md.1, md.2, hok.1, hok.2.1, hok.2.2.1, hok.2.2.2, ?_⟩
  rw [← hev]
  show dateString year (parseDotMD (fmtMD md)).1 (parseDotMD (fmtMD md)).2 = _
  rw [parseDotMD_fmtMD]

/-- C5 amended witness: the event of `testImg` is dated with month 2 and
day 31. -/
theorem C5_amended_witness :
    ∃ m d : Int, 1 ≤ m ∧ m ≤ 12 ∧ 1 ≤ d ∧ d ≤ 31 ∧
      (⟨"2026-02-31", "biotonne", "Biotonne"⟩ : Event).date = dateString 2026 m d :=
  C5_amended_event_dates 2026 testImg testR parse_test
    ⟨"2026-02-31", "biotonne", "Biotonne"⟩ (by decide)

/-! ## C7: the event date string round-trips and orders like (month, day) -/

lemma natVal?_of_digits {l : List Char} (hne : l ≠ [])
    (h : ∀ c ∈ l, isDigitC c = true) : natVal? l = some (charsNat l) := by
  unfold natVal?
  rw [if_pos ⟨hne, List.all_eq_true.2 h⟩]

lemma intVal?_of_digits {l : List Char} (hne : l ≠ [])
    (h : ∀ c ∈ l, isDigitC c = true) : intVal? l = some ((charsNat l : Nat) : Int) := by
  cases l with
  | nil => exact absurd rfl hne
  | cons c rest =>
    have hc : c ≠ '-' := digit_ne_dash (h c (by simp))
    unfold intVal?
    split
    · rename_i rest' heq
      exfalso
      injection heq with h1 h2
      exact hc h1
    · rw [natVal?_of_digits hne h]
      rfl

lemma pad2_digits {m : Int} (hm : 0 ≤ m) : ∀ c ∈ pad2 m, isDigitC c = true := by
  unfold pad2 intChars
  rw [if_neg (by omega : ¬m < 0)]
  intro c hc
  split at hc
  · rcases List.mem_cons.1 hc with rfl | h1
    · decide
    · exact decimalChars_digits _ _ h1
  · exact decimalChars_digits _ _ hc

lemma pad2_ne_nil (m : Int) : pad2 m ≠ [] := by
  unfold pad2
  split
  · simp
  · unfold intChars
    split
    · simp
    · exact decimalChars_ne_nil _

lemma charsNat_cons_zero (l : List Char) : charsNat ('0' :: l) = charsNat l := by
  unfold charsNat
  rfl

lemma charsNat_pad2 {m : Int} (hm : 0 ≤ m) : charsNat (pad2 m) = m.toNat := by
  unfold pad2 intChars
  rw [if_neg (by omega : ¬m < 0)]
  split
  · rw [charsNat_cons_zero, charsNat_decimalChars]
  · rw [charsNat_decimalChars]

lemma pad2_no_dash {m : Int} (hm : 0 ≤ m) : ∀ c ∈ pad2 m, c ≠ '-' :=
  fun c hc => digit_ne_dash (pad2_digits hm c hc)

lemma dateChars_split (year : Nat) {m d : Int} (hm : 0 ≤ m) (hd : 0 ≤ d) :
    splitOnChar '-' (dateChars year m d) =
      [decimalChars year, pad2 m, pad2 d] := by
  unfold dateChars
  rw [splitOnChar_append (fun c hc => digit_ne_dash (decimalChars_digits year c hc)),
    splitOnChar_append (pad2_no_dash hm),
    splitOnChar_of_not_mem (pad2_no_dash hd)]

lemma parseDashDate_dateString (year : Nat) {m d : Int} (hm : 0 ≤ m) (hd : 0 ≤ d) :
    parseDashDate (dateString year m d) = some ((year : Int), m, d) := by
  unfold parseDashDate dateString
  show (match splitOnChar '-' (dateChars year m d) with
    | [a, b, c] =>
      match intVal? a, intVal? b, intVal? c with
      | some y, some m, some d => some (y, m, d)
      | _, _, _ => none
    | _ => none) = some ((year : Int), m, d)
  rw [dateChars_split year hm hd]
  show (match intVal? (decimalChars year), intVal? (pad2 m), intVal? (pad2 d) with
    | some y, some m, some d => some (y, m, d)
    | _, _, _ => none) = some ((year : Int), m, d)
  rw [intVal?_of_digits (decimalChars_ne_nil year) (decimalChars_digits year),
    intVal?_of_digits (pad2_ne_nil m) (pad2_digits hm),
    intVal?_of_digits (pad2_ne_nil d) (pad2_digits hd),
    charsNat_decimalChars, charsNat_pad2 hm, charsNat_pad2 hd]
  have h1 : ((m.toNat : Int)) = m := by omega
  have h2 : ((d.toNat : Int)) = d := by omega
  show some ((year : Int), (m.toNat : Int), (d.toNat : Int)) = some ((year : Int), m, d)
  rw [h1, h2]

lemma decimalAux_small {fuel k : Nat} (hf : 0 < fuel) (hk : k < 10) :
    decimalAux fuel k = [digitChar k] := by
  cases fuel with
  | zero => omega
  | succ fuel => rw [decimalAux, if_pos hk]

lemma decimalChars_small {k : Nat} (hk : k < 10) : decimalChars k = [digitChar k] :=
  decimalAux_small (by omega) hk

lemma decimalChars_two {k : Nat} (h1 : 10 ≤ k) (h2 : k < 100) :
    decimalChars k = [digitChar (k / 10), digitChar (k % 10)] := by
  unfold decimalChars
  rw [decimalAux, if_neg (by omega),
    decimalAux_small (by omega) (by omega)]
  rfl

lemma pad2_two {m : Int} (h0 : 0 ≤ m) (h : m < 100) :
    pad2 m = [digitChar (m.toNat / 10), digitChar (m.toNat % 10)] := by
  unfold pad2 intChars
  rw [if_neg (by omega : ¬m < 0)]
  by_cases hm : m.toNat < 10
  · rw [decimalChars_small hm]
    rw [if_pos (by simp)]
    have h10 : m.toNat / 10 = 0 := by omega
    have hmod : m.toNat % 10 = m.toNat := by omega
    rw [h10, hmod]
    rfl
  · rw [decimalChars_two (by omega) (by omega)]
    rw [if_neg (by simp)]

lemma digitChar_lt_iff {a b : Nat} (ha : a < 10) (hb : b < 10) :
    (digitChar a < digitChar b) ↔ a < b := by
  interval_cases a <;> interval_cases b <;> decide

lemma digitChar_inj_iff {a b : Nat} (ha : a < 10) (hb : b < 10) :
    (digitChar a = digitChar b) ↔ a = b := by
  interval_cases a <;> interval_cases b <;> decide

lemma charList_lt_cons_iff {a b : Char} {l1 l2 : List Char} :
    (a :: l1) < (b :: l2) ↔ (a < b ∨ (a = b ∧ l1 < l2)) := by
  constructor
  · intro h
    cases h with
    | rel hr => exact Or.inl hr
    | cons ht => exact Or.inr ⟨rfl, ht⟩
  · rintro (h | ⟨rfl, h⟩)
    · exact List.Lex.rel h
    · exact List.Lex.cons h

lemma charList_nil_lt_nil : (([] : List Char) < ([] : List Char)) ↔ False := by
  constructor
  · intro h
    cases h
  · exact False.elim

lemma charList_append_lt_iff (s t1 t2 : List Char) :
    (s ++ t1) < (s ++ t2) ↔ t1 < t2 := by
  induction s with
  | nil => rfl
  | cons c s' ih =>
    rw [List.cons_append, List.cons_append, charList_lt_cons_iff]
    simp [lt_irrefl c, ih]

lemma string_lt_data (s t : String) : (s < t) ↔ (s.toList < t.toList) := String.lt_iff_toList_lt

lemma dateString_lt_iff (year : Nat) {m1 d1 m2 d2 : Int}
    (hm1 : 1 ≤ m1) (hm1' : m1 ≤ 12) (hd1 : 1 ≤ d1) (hd1' : d1 ≤ 31)
    (hm2 : 1 ≤ m2) (hm2' : m2 ≤ 12) (hd2 : 1 ≤ d2) (hd2' : d2 ≤ 31) :
    (dateString year m1 d1 < dateString year m2 d2) ↔
      (m1 < m2 ∨ (m1 = m2 ∧ d1 < d2)) := by
  rw [string_lt_data]
  show dateChars year m1 d1 < dateChars year m2 d2 ↔ _
  unfold dateChars
  rw [charList_append_lt_iff, charList_lt_cons_iff]
  rw [pad2_two (by omega) (by omega), pad2_two (by omega) (by omega),
    pad2_two (by omega) (by omega), pad2_two (by omega) (by omega)]
  simp only [List.cons_append, List.nil_append]
  rw [charList_lt_cons_iff, charList_lt_cons_iff, charList_lt_cons_iff,
    charList_lt_cons_iff, charList_lt_cons_iff, charList_nil_lt_nil]
  rw [digitChar_lt_iff (by omega) (by omega), digitChar_inj_iff (by omega) (by omega),
    digitChar_lt_iff (by omega) (by omega), digitChar_inj_iff (by omega) (by omega),
    digitChar_lt_iff (by omega) (by omega), digitChar_inj_iff (by omega) (by omega),
    digitChar_lt_iff (by omega) (by omega)]
  simp only [lt_self_iff_false, and_false, false_or, eq_self_iff_true, true_and, or_false,
    and_true]
  omega

lemma dateString_inj (year : Nat) {m1 d1 m2 d2 : Int}
    (hm1 : 0 ≤ m1) (hd1 : 0 ≤ d1) (hm2 : 0 ≤ m2) (hd2 : 0 ≤ d2) :
    (dateString year m1 d1 = dateString year m2 d2) ↔ (m1 = m2 ∧ d1 = d2) := by
  constructor
  · intro h
    have h1 := parseDashDate_dateString year hm1 hd1
    rw [h, parseDashDate_dateString year hm2 hd2] at h1
    simp only [Option.some.injEq, Prod.mk.injEq] at h1
    exact ⟨h1.2.1.symm, h1.2.2.symm⟩
  · rintro ⟨rfl, rfl⟩
    rfl

/-- C7: the Event date string is zero-padded (`month=3` renders as "03"),
parses back exactly to its source (year, month, day), and — within a fixed
year — comparing two date strings agrees with comparing their
(month, day) pairs, so sorting by date string is sorting by (month, day). -/
theorem C7_date_roundtrip_order (year : Nat) (m d m2 d2 : Int)
    (hm1 : 1 ≤ m) (hm2 : m ≤ 12) (hd1 : 1 ≤ d) (hd2 : d ≤ 31)
    (hm1' : 1 ≤ m2) (hm2' : m2 ≤ 12) (hd1' : 1 ≤ d2) (hd2' : d2 ≤ 31) :
    pad2 3 = ['0', '3'] ∧
    parseDashDate (dateString year m d) = some ((year : Int), m, d) ∧
    ((dateString year m d < dateString year m2 d2) ↔ (m < m2 ∨ (m = m2 ∧ d < d2))) ∧
    ((dateString year m d = dateString year m2 d2) ↔ (m = m2 ∧ d = d2)) :=
  ⟨by decide,
   parseDashDate_dateString year (by omega) (by omega),
   dateString_lt_iff year hm1 hm2 hd1 hd2 hm1' hm2' hd1' hd2',
   dateString_inj year (by omega) (by omega) (by omega) (by omega)⟩

/-- C7 witness at year 2026, (3, 5) against (3, 7). -/
theorem C7_witness :
    pad2 3 = ['0', '3'] ∧
    parseDashDate (dateString 2026 3 5) = some ((2026 : Int), 3, 5) ∧
    ((dateString 2026 3 5 < dateString 2026 3 7) ↔
      ((3 : Int) < 3 ∨ ((3 : Int) = 3 ∧ (5 : Int) < 7))) ∧
    ((dateString 2026 3 5 = dateString 2026 3 7) ↔ ((3 : Int) = 3 ∧ (5 : Int) = 7)) :=
  C7_date_roundtrip_order 2026 3 5 3 7 (by decide) (by decide) (by decide) (by decide)
    (by decide) (by decide) (by decide) (by decide)
